import Mathlib

/-!
# HFTCore: the TCP reactor and the thread launcher

A shallow embedding of `utils/tcp_server.cpp` (`TCPServer`) and of
`utils/thread_util.h` (`create_and_start_thread`), with the properties of the
design document stated and proved over it.

Conventions of the embedding.

* A `TCPSocket *` is a natural number (`SocketPtr`); `0` is `nullptr`.
* Both builds of the source are kept: the `__linux__` branch (epoll) and the
  other branch (kqueue). `Backend` selects the build; `Event` has one
  constructor per kernel event record.
* Calls into collaborators (kernel, socket objects, pool, clock) are inputs
  of the embedded functions; every outside effect of a function is recorded
  in its result (a new state, a trace of actions, or a fatal abort).
-/

namespace utils

/-! ## Data model -/

/-- Identity of a pooled socket object, the value of a `TCPSocket *`. -/
abbrev SocketPtr := Nat

/-- Identity of a caller-supplied callback object. -/
abbrev CallbackId := Nat

/-- The two builds of the source: `#ifdef __linux__` and `#else`. -/
inductive Backend where
  | epoll
  | kqueue
  deriving DecidableEq, Repr

/-- The part of a `TCPSocket` object that the server writes: the descriptor
(`setSocketFd`) and the receive callback (`setRecvCallback`). -/
structure TCPSocket where
  socketFd : Int
  recvCallback : Option CallbackId
  deriving DecidableEq, Repr

/-- Bit of `epoll_event.events`: readable. -/
def EPOLLIN : Nat := 0x001
/-- Bit of `epoll_event.events`: writable. -/
def EPOLLOUT : Nat := 0x004
/-- Bit of `epoll_event.events`: error condition. -/
def EPOLLERR : Nat := 0x008
/-- Bit of `epoll_event.events`: hang up. -/
def EPOLLHUP : Nat := 0x010
/-- Value of `kevent.filter` for the read filter. -/
def EVFILT_READ : Int := -1
/-- Value of `kevent.filter` for the write filter. -/
def EVFILT_WRITE : Int := -2
/-- Bit of `kevent.flags`: end of file. -/
def EV_EOF : Nat := 0x8000
/-- Bit of `kevent.flags`: error. -/
def EV_ERROR : Nat := 0x4000

/-- One entry of `events_`: an `epoll_event` (bit mask `events`, `data.ptr`)
or a `struct kevent` (`filter`, `flags`, `udata`). -/
inductive Event where
  | epoll (events : Nat) (ptr : SocketPtr)
  | kevent (filter : Int) (flags : Nat) (udata : SocketPtr)
  deriving DecidableEq, Repr

namespace Event

/-- The socket of an event: `reinterpret_cast<TCPSocket *>(event.data.ptr)`, respectively `event.udata`. -/
def socket : Event → SocketPtr
  | .epoll _ p => p
  | .kevent _ _ p => p

/-- First test of the event loop: `event.events & EPOLLIN`, respectively
`event.filter == EVFILT_READ`. -/
def readReady : Event → Bool
  | .epoll ev _ => ev &&& EPOLLIN != 0
  | .kevent f _ _ => f == EVFILT_READ

/-- Second test of the event loop: `event.events & EPOLLOUT`, respectively
`event.filter == EVFILT_WRITE`. -/
def writeReady : Event → Bool
  | .epoll ev _ => ev &&& EPOLLOUT != 0
  | .kevent f _ _ => f == EVFILT_WRITE

/-- Third test of the event loop: `event.events & (EPOLLERR | EPOLLHUP)`,
respectively `event.flags & (EV_EOF | EV_ERROR)`. -/
def errorHangup : Event → Bool
  | .epoll ev _ => ev &&& (EPOLLERR ||| EPOLLHUP) != 0
  | .kevent _ fl _ => fl &&& (EV_EOF ||| EV_ERROR) != 0

end Event

/-- The fatal conditions of the server, one per `ASSERT_CONDITION` of the
source and one for the exhausted pool. -/
inductive Fatal where
  | listenerConnect
  | listenerRegister
  | socketMode
  | poolExhausted
  | socketRegister
  deriving DecidableEq, Repr

/-- The state of a `TCPServer`. The first six fields are the members the
source names. `sockets` and `live` stand for `socketPool_`: the pooled
objects and the handles handed out so far. `interest` is the registration
table that the kernel keeps for `eventFd_`. -/
structure TCPServer where
  eventFd_ : Int
  listenerSocket_ : SocketPtr
  receiveSockets_ : List SocketPtr
  sendSockets_ : List SocketPtr
  recvCallback_ : Option CallbackId
  recvFinishedCallback_ : Option CallbackId
  sockets : SocketPtr → TCPSocket
  live : List SocketPtr
  interest : List SocketPtr

/-- Modelled from the spec: `ASSERT_CONDITION(cond, ...)` of the missing
`debug_assertion.h`, the single assertion-style mechanism that aborts with a
message when the condition is false. -/
def ASSERT_CONDITION (cond : Bool) (failure : Fatal) : Except Fatal Unit :=
  if cond then .ok () else .error failure

/-- Modelled from the spec: `socketPool_.allocate()` of the missing pool. The
outcome is an input: a handle, or `none` for the exhausted pool, which is a
fatal condition. -/
def allocate (s : TCPServer) (outcome : Option SocketPtr) : Except Fatal (SocketPtr × TCPServer) :=
  match outcome with
  | none => .error .poolExhausted
  | some p => .ok (p, { s with live := s.live ++ [p] })

/-- The membership test and insertion used four times in `poll()`:
`find_if(v.begin(), v.end(), [socket](s) { return s == socket; })`, then
`push_back(socket)` when the search ends at `v.end()`. -/
def pushIfAbsent (v : List SocketPtr) (socket : SocketPtr) : List SocketPtr :=
  match v.find? (fun s => s == socket) with
  | none => v ++ [socket]
  | some _ => v

/-! ## `TCPServer::stop` -/

/-- `TCPServer::stop`, lines 14-22. The second component lists the
descriptors passed to `close()`. Closing the event descriptor drops the
kernel's registration table. -/
def stop (s : TCPServer) : TCPServer × List Int :=
  let r : TCPServer × List Int :=
    if s.eventFd_ ≠ -1 then
      ({ s with eventFd_ := -1, interest := [] }, [s.eventFd_])
    else
      (s, [])
  ({ r.1 with receiveSockets_ := [], sendSockets_ := [] }, r.2)

/-! ## `TCPServer::addSocketToEventSystem` and `TCPServer::listen` -/

/-- `TCPServer::addSocketToEventSystem`, lines 155-166. `kernelOk` tells
whether the kernel accepted the registration (`epoll_ctl(...) == 0`,
respectively `kevent(...)` not failing). The epoll build returns that
result; the kqueue build discards the result of `kevent` and returns
`true`. -/
def addSocketToEventSystem (b : Backend) (s : TCPServer) (socket : SocketPtr) (kernelOk : Bool) :
    Bool × TCPServer :=
  let s1 := if kernelOk then { s with interest := s.interest ++ [socket] } else s
  match b with
  | .epoll => (kernelOk, s1)
  | .kqueue => (true, s1)

/-- What the collaborators answer during one `listen()` call. -/
structure ListenEnv where
  /-- Result of `epoll_create1(0)`, respectively `kqueue()`. -/
  eventFd : Int
  /-- Outcome of `socketPool_.allocate()`. -/
  slot : Option SocketPtr
  /-- Return value of `listenerSocket_->connect("", interfaceName, port, true)`. -/
  connectStatus : Int
  /-- Descriptor the listener holds after `connect`. -/
  listenerFd : Int
  /-- Whether the kernel accepts the registration of the listener. -/
  registerOk : Bool

/-- `TCPServer::listen`, lines 32-43. -/
def listen (b : Backend) (s : TCPServer) (env : ListenEnv) : Except Fatal TCPServer := do
  let s1 := { s with eventFd_ := env.eventFd, interest := [] }
  let (p, s2) ← allocate s1 env.slot
  let s3 := { s2 with listenerSocket_ := p }
  let s4 := { s3 with
    sockets := fun q => if q = p then { s3.sockets q with socketFd := env.listenerFd } else s3.sockets q }
  ASSERT_CONDITION (decide (env.connectStatus ≥ 0)) .listenerConnect
  let (ok, s5) := addSocketToEventSystem b s4 p env.registerOk
  ASSERT_CONDITION ok .listenerRegister
  return s5

/-! ## `TCPServer::poll` -/

/-- Conversion of an unsigned value to `int` (32 bits, two's complement). -/
def toInt32 (n : Nat) : Int :=
  if n % 2 ^ 32 < 2 ^ 31 then (n % 2 ^ 32 : Nat) else ((n % 2 ^ 32 : Nat) : Int) - 2 ^ 32

/-- Line 46: `const int maxEvents = 1 + sendSockets_.size() + receiveSockets_.size();`
computed in `size_t` (64 bits) and converted to `int`. -/
def maxEvents (s : TCPServer) : Int :=
  toInt32 ((1 + s.sendSockets_.length + s.receiveSockets_.length) % 2 ^ 64)

/-- Modelled from the spec: the kernel call `epoll_wait(eventFd_, events_, maxEvents, 0)`,
respectively `kevent(eventFd_, nullptr, 0, events_, maxEvents, &timeout)`. It
returns at once with the events that are ready, up to `maxEvents` of them:
the first `n` entries of `events_`. -/
def eventWait (maxEvents : Int) (ready : List Event) : List Event :=
  ready.take maxEvents.toNat

/-- The events that one `poll()` call iterates over: `events_[0 .. n)`. -/
def eventBatch (s : TCPServer) (ready : List Event) : List Event :=
  eventWait (maxEvents s) ready

/-- One iteration of the event loop, lines 55-108. The state of the loop is
the server and the flag `haveNewConnection`. -/
def handleEvent (acc : TCPServer × Bool) (event : Event) : TCPServer × Bool :=
  let s := acc.1
  let socket := event.socket
  if event.readReady && socket == s.listenerSocket_ then
    (s, true)
  else
    let s1 := if event.readReady then
        { s with receiveSockets_ := pushIfAbsent s.receiveSockets_ socket } else s
    let s2 := if event.writeReady then
        { s1 with sendSockets_ := pushIfAbsent s1.sendSockets_ socket } else s1
    let s3 := if event.errorHangup then
        { s2 with receiveSockets_ := pushIfAbsent s2.receiveSockets_ socket } else s2
    (s3, acc.2)

/-- The event loop of `poll()`, lines 54-108, over the events returned by
the kernel. -/
def processEvents (s : TCPServer) (events : List Event) : TCPServer × Bool :=
  events.foldl handleEvent (s, false)

/-- What the collaborators answer during one iteration of the accept loop. -/
structure Accepted where
  /-- Return value of `accept(...)`. -/
  fd : Int
  /-- Result of `setSocketNonBlocking(fd)`. -/
  nonBlockingOk : Bool
  /-- Result of `disableNagleAlgorithm(fd)`. -/
  noDelayOk : Bool
  /-- Outcome of `socketPool_.allocate()`. -/
  slot : Option SocketPtr
  /-- Whether the kernel accepts the registration of the new socket. -/
  registerOk : Bool
  deriving DecidableEq, Repr

/-- The body of the accept loop after a successful `accept`, lines 119-130. -/
def acceptOne (b : Backend) (s : TCPServer) (a : Accepted) : Except Fatal TCPServer := do
  ASSERT_CONDITION (a.nonBlockingOk && a.noDelayOk) .socketMode
  let (p, s1) ← allocate s a.slot
  let s2 := { s1 with
    sockets := fun q => if q = p then { socketFd := a.fd, recvCallback := s1.recvCallback_ } else s1.sockets q }
  let (ok, s3) := addSocketToEventSystem b s2 p a.registerOk
  ASSERT_CONDITION ok .socketRegister
  return { s3 with receiveSockets_ := pushIfAbsent s3.receiveSockets_ p }

/-- The accept loop, lines 111-131, entered with `haveNewConnection` set. The
list holds the answers to the successive `accept` calls; after the last one
`accept` returns `-1` (nothing pending). -/
def acceptLoop (b : Backend) (s : TCPServer) : List Accepted → Except Fatal TCPServer
  | [] => .ok s
  | a :: rest =>
    if a.fd = -1 then .ok s
    else
      match acceptOne b s a with
      | .error e => .error e
      | .ok s1 => acceptLoop b s1 rest

/-- `TCPServer::poll`, lines 45-132. `ready` is the list of events the kernel
holds ready at the call, `accepts` the answers to the `accept` calls. -/
def poll (b : Backend) (s : TCPServer) (ready : List Event) (accepts : List Accepted) :
    Except Fatal TCPServer :=
  let r := processEvents s (eventBatch s ready)
  if r.2 then acceptLoop b r.1 accepts else .ok r.1

/-! ## `TCPServer::sendAndReceive` -/

/-- What `sendAndReceive()` does to the outside: a call of
`socket->sendAndRecv()` with its return value, a call of `recvCallback_`, a
call of `recvFinishedCallback_`. -/
inductive Action where
  | exchange (socket : SocketPtr) (received : Bool)
  | onReceive (callback : CallbackId) (socket : SocketPtr) (nanos : Nat)
  | onReceiveCycleFinished (callback : CallbackId)
  deriving DecidableEq, Repr

/-- What the collaborators answer during one `sendAndReceive()` call. -/
structure ExchangeEnv where
  /-- Return value of the call number `k` (from 0) of `sendAndRecv()` in this cycle. -/
  received : Nat → Bool
  /-- Result of the call number `k` (from 0) of `getCurrentNanos()` in this cycle. -/
  nanos : Nat → Nat

/-- The running state of one `sendAndReceive()` call: the actions so far, the
number of `sendAndRecv()` and of `getCurrentNanos()` calls so far, and the
local `receivedData`. -/
structure Cycle where
  trace : List Action
  calls : Nat
  clockReads : Nat
  receivedData : Bool
  deriving DecidableEq, Repr

/-- One iteration of the loop over `receiveSockets_`, lines 137-144. -/
def recvStep (recvCallback : Option CallbackId) (env : ExchangeEnv) (c : Cycle) (socket : SocketPtr) :
    Cycle :=
  let r := env.received c.calls
  let c1 := { c with trace := c.trace ++ [Action.exchange socket r], calls := c.calls + 1 }
  if r then
    let c2 := { c1 with receivedData := true }
    match recvCallback with
    | some f =>
      { c2 with
        trace := c2.trace ++ [Action.onReceive f socket (env.nanos c2.clockReads)],
        clockReads := c2.clockReads + 1 }
    | none => c2
  else c1

/-- The test after the first loop, lines 146-148. -/
def finishStep (recvFinishedCallback : Option CallbackId) (c : Cycle) : Cycle :=
  if c.receivedData then
    match recvFinishedCallback with
    | some f => { c with trace := c.trace ++ [Action.onReceiveCycleFinished f] }
    | none => c
  else c

/-- One iteration of the loop over `sendSockets_`, lines 150-152: the return
value of `sendAndRecv()` is discarded. -/
def sendStep (env : ExchangeEnv) (c : Cycle) (socket : SocketPtr) : Cycle :=
  { c with trace := c.trace ++ [Action.exchange socket (env.received c.calls)], calls := c.calls + 1 }

/-- `TCPServer::sendAndReceive`, lines 134-153: the actions of one call, in
order. The members of the server are not written. -/
def sendAndReceive (s : TCPServer) (env : ExchangeEnv) : List Action :=
  let c0 : Cycle := { trace := [], calls := 0, clockReads := 0, receivedData := false }
  let c1 := s.receiveSockets_.foldl (recvStep s.recvCallback_ env) c0
  let c2 := finishStep s.recvFinishedCallback_ c1
  let c3 := s.sendSockets_.foldl (sendStep env) c2
  c3.trace

/-- The sockets whose `sendAndRecv()` was called, in call order. -/
def exchangedSockets (t : List Action) : List SocketPtr :=
  t.filterMap fun a => match a with
    | .exchange p _ => some p
    | _ => none

/-- The callbacks invoked as `recvFinishedCallback_()`, in call order. -/
def finishedCalls (t : List Action) : List CallbackId :=
  t.filterMap fun a => match a with
    | .onReceiveCycleFinished f => some f
    | _ => none

/-- The sockets of `v`, in order, whose `sendAndRecv()` call returns `true`
when the calls over `v` are numbered from `k`. -/
def reporters (env : ExchangeEnv) : Nat → List SocketPtr → List SocketPtr
  | _, [] => []
  | k, p :: rest =>
    if env.received k then p :: reporters env (k + 1) rest else reporters env (k + 1) rest

/-- The calls of `recvCallback_`, in order: the callback and the socket
passed to it. -/
def onReceiveCalls (t : List Action) : List (CallbackId × SocketPtr) :=
  t.filterMap fun a => match a with
    | .onReceive f p _ => some (f, p)
    | _ => none

/-- The calls of `recvCallback_` for the sockets of `v`: one per socket when
the callback is configured, none when it is empty. -/
def callbackCalls (cb : Option CallbackId) (v : List SocketPtr) : List (CallbackId × SocketPtr) :=
  match cb with
  | some f => v.map (fun p => (f, p))
  | none => []

/-- The actions of the test after the receive pass: one call of the
configured callback when `receivedData` is set, nothing otherwise. -/
def finishedCallsOf (cb : Option CallbackId) (receivedData : Bool) : List Action :=
  match cb, receivedData with
  | some f, true => [Action.onReceiveCycleFinished f]
  | _, _ => []

/-! ## `create_and_start_thread` -/

/-- The three builds of `set_thread_core_affinity`. -/
inductive HostOS where
  | windows
  | macos
  | linux
  deriving DecidableEq, Repr

/-- `set_thread_core_affinity`, lines 31-53. `sys` is the status the system
call returns for a core: `SetThreadAffinityMask(...)`, `thread_policy_set(...)`
(`KERN_SUCCESS` is 0), `pthread_setaffinity_np(...)`. -/
def set_thread_core_affinity (os : HostOS) (sys : Int → Int) (core_id : Int) : Bool :=
  match os with
  | .windows => sys core_id != 0
  | .macos => sys core_id == 0
  | .linux => sys core_id == 0

/-- What the started execution unit does to the outside. -/
inductive ThreadAction (F A : Type) where
  | setAffinity (core_id : Int)
  | reportFailure (name : String) (core_id : Int)
  | reportSuccess (name : String) (core_id : Int)
  | invoke (function : F) (arguments : A)
  | terminate

/-- `create_and_start_thread`, lines 59-73: the actions, in order, of the
thread that runs the closure `f`. The affinity call is made only when
`core_id >= 0` (short-circuit of `&&`). -/
def create_and_start_thread {F A : Type} (os : HostOS) (sys : Int → Int)
    (core_id : Int) (name : String) (func : F) (args : A) : List (ThreadAction F A) :=
  let pin : Bool := decide (core_id ≥ 0)
  let t0 : List (ThreadAction F A) := if pin then [.setAffinity core_id] else []
  if pin && !set_thread_core_affinity os sys core_id then
    t0 ++ [.reportFailure name core_id, .terminate]
  else
    t0 ++ [.reportSuccess name core_id, .invoke func args]

/-- The calls of the callable made by a thread, in order. -/
def invocations {F A : Type} (t : List (ThreadAction F A)) : List (F × A) :=
  t.filterMap fun a => match a with
    | .invoke f x => some (f, x)
    | _ => none

/-- Whether a thread called `std::terminate()`. -/
def terminated {F A : Type} (t : List (ThreadAction F A)) : Bool :=
  t.any fun a => match a with
    | .terminate => true
    | _ => false

/-- The cores passed to `set_thread_core_affinity` by a thread, in order. -/
def affinityCalls {F A : Type} (t : List (ThreadAction F A)) : List Int :=
  t.filterMap fun a => match a with
    | .setAffinity c => some c
    | _ => none

/-! ## Concrete states used in the examples -/

/-- A server before `listen()`: both sets empty, nothing allocated, nothing
registered, both callbacks configured (identities 100 and 200). -/
def freshServer : TCPServer :=
  { eventFd_ := -1
    listenerSocket_ := 0
    receiveSockets_ := []
    sendSockets_ := []
    recvCallback_ := some 100
    recvFinishedCallback_ := some 200
    sockets := fun _ => { socketFd := -1, recvCallback := none }
    live := []
    interest := [] }

/-- A `listen()` call in which everything succeeds: event descriptor 3, the
listener in pool slot 1 with descriptor 4. -/
def goodListen : ListenEnv :=
  { eventFd := 3, slot := some 1, connectStatus := 0, listenerFd := 4, registerOk := true }

/-- A `listen()` call in which the event facility could not be opened
(descriptor -1), so that the kernel rejects the registration of the listener,
while `connect` succeeds. -/
def failedRegistration : ListenEnv :=
  { eventFd := -1, slot := some 1, connectStatus := 0, listenerFd := 4, registerOk := false }

/-- The server after a successful `listen()`: listener in slot 1, registered. -/
def listeningServer : TCPServer :=
  { eventFd_ := 3
    listenerSocket_ := 1
    receiveSockets_ := []
    sendSockets_ := []
    recvCallback_ := some 100
    recvFinishedCallback_ := some 200
    sockets := fun q => if q = 1 then { socketFd := 4, recvCallback := none }
      else { socketFd := -1, recvCallback := none }
    live := [1]
    interest := [1] }

/-- An accepted connection with descriptor `fd` placed in pool slot `slot`,
with every step succeeding. -/
def goodAccept (fd : Int) (slot : SocketPtr) : Accepted :=
  { fd := fd, nonBlockingOk := true, noDelayOk := true, slot := some slot, registerOk := true }

/-- A listening server with one peer (slot 2, descriptor 5) that is in both
sets. -/
def busyServer : TCPServer :=
  { eventFd_ := 3
    listenerSocket_ := 1
    receiveSockets_ := [2]
    sendSockets_ := [2]
    recvCallback_ := some 100
    recvFinishedCallback_ := some 200
    sockets := fun q => if q = 1 then { socketFd := 4, recvCallback := none }
      else if q = 2 then { socketFd := 5, recvCallback := some 100 }
      else { socketFd := -1, recvCallback := none }
    live := [1, 2]
    interest := [1, 2] }

/-- A batch with repeated events for the peer in slot 2 and a read-ready
event of the listener (slot 1), in the epoll build. -/
def repeatedEvents : List Event :=
  [ Event.epoll (EPOLLIN ||| EPOLLOUT) 2, Event.epoll EPOLLIN 1, Event.epoll EPOLLOUT 2 ]

/-- Three pending clients (descriptors 5, 6, 7) for a pool of capacity 4
whose slot 1 holds the listener: they get the slots 2, 3 and 4. -/
def threeClients : List Accepted :=
  [ goodAccept 5 2, goodAccept 6 3, goodAccept 7 4 ]

/-- A listening server whose peer in slot 2 is registered and in neither
set. -/
def idleServer : TCPServer :=
  { busyServer with receiveSockets_ := [], sendSockets_ := [] }

/-- A server with the peers 2 and 3 in the receive set and the peer 3 in the
send set. -/
def twoPeers : TCPServer :=
  { busyServer with
    receiveSockets_ := [2, 3]
    sendSockets_ := [3]
    live := [1, 2, 3]
    interest := [1, 2, 3] }

/-- A cycle in which only the call number `n` of `sendAndRecv()` reports
received data; the clock reads 1000, 1001, ... -/
def onlyCall (n : Nat) : ExchangeEnv :=
  { received := fun k => k == n, nanos := fun k => 1000 + k }

/-! ## Reachable states and the kernel's ready list -/

/-- Whether an event record belongs to a build, with the filters that
`addSocketToEventSystem` registers. -/
def Event.wellFormed : Backend → Event → Bool
  | .epoll, .epoll _ _ => true
  | .kqueue, .kevent f _ _ => f == EVFILT_READ || f == EVFILT_WRITE
  | _, _ => false

/-- What the kernel reports at most once at a time: a descriptor in the bit
mask model, a descriptor with a filter in the filter model. -/
def Event.key : Event → SocketPtr × Int
  | .epoll _ p => (p, 0)
  | .kevent f _ p => (p, f)

/-- Modelled from the spec: the events the kernel can hold ready at once for
the registered sockets. Every event is one of a registered socket; the bit
mask model has one event per descriptor, the filter model one event per
descriptor and filter, so up to two per descriptor. -/
def ReadyList (b : Backend) (s : TCPServer) (ready : List Event) : Prop :=
  (∀ e ∈ ready, e.wellFormed b = true ∧ e.socket ∈ s.interest) ∧ (ready.map Event.key).Nodup

/-- Modelled from the spec: the pool hands out a handle once. The handles of
the accepted connections are distinct and none is handed out already. -/
def FreshSlots (s : TCPServer) (accepts : List Accepted) : Prop :=
  (accepts.filterMap Accepted.slot).Nodup ∧ ∀ p ∈ accepts.filterMap Accepted.slot, p ∉ s.live

/-- The states reachable from `listen()` on a new server through `poll()`
calls. `sendAndReceive()` writes no member, so it adds no state. -/
inductive Reachable (b : Backend) : TCPServer → Prop where
  | listen (s0 : TCPServer) (env : ListenEnv) (s : TCPServer) :
      s0.receiveSockets_ = [] → s0.sendSockets_ = [] → s0.live = [] →
      listen b s0 env = .ok s → Reachable b s
  | poll (s : TCPServer) (ready : List Event) (accepts : List Accepted) (s1 : TCPServer) :
      Reachable b s → ReadyList b s ready → FreshSlots s accepts →
      poll b s ready accepts = .ok s1 → Reachable b s1

/-- The server after `listen()` and one `poll()` that accepted one peer
(slot 2, descriptor 5). -/
def onePeerServer : TCPServer :=
  { eventFd_ := 3
    listenerSocket_ := 1
    receiveSockets_ := [2]
    sendSockets_ := []
    recvCallback_ := some 100
    recvFinishedCallback_ := some 200
    sockets := fun q => if q = 2 then { socketFd := 5, recvCallback := some 100 }
      else if q = 1 then { socketFd := 4, recvCallback := none }
      else { socketFd := -1, recvCallback := none }
    live := [1, 2]
    interest := [1, 2] }

/-- Three events ready at once in the kqueue build for `onePeerServer`: a
further pending connection on the listener, and the peer both readable and
writable. -/
def threeReady : List Event :=
  [ Event.kevent EVFILT_READ 0 1, Event.kevent EVFILT_READ 0 2, Event.kevent EVFILT_WRITE 0 2 ]

/-- The invariant behind the batch size: the registered sockets are distinct,
handed out by the pool, and each is the listener or in the receive set. -/
def Registered (s : TCPServer) : Prop :=
  s.interest.Nodup ∧ (∀ p ∈ s.interest, p ∈ s.live) ∧
  (∀ p ∈ s.interest, p = s.listenerSocket_ ∨ p ∈ s.receiveSockets_)

/-! # Properties -/

/-! ## Shutdown -/

/-- Claim C5. For every server state, `stop()` leaves the receive set and the
send set empty and the event handle at -1; a second `stop()` closes nothing
and gives the same state as the first. -/
theorem stop_idempotent (s : TCPServer) :
    (stop s).1.receiveSockets_ = [] ∧ (stop s).1.sendSockets_ = [] ∧
    (stop s).1.eventFd_ = -1 ∧
    (stop s).2 = (if s.eventFd_ = -1 then [] else [s.eventFd_]) ∧
    (stop (stop s).1).2 = [] ∧ (stop (stop s).1).1 = (stop s).1 := by
  by_cases h : s.eventFd_ = -1
  · simp [stop, h]
  · simp [stop, h]

/-! ## Thread launcher -/

/-- Claim C10. The thread started by `create_and_start_thread` terminates the
process without invoking the callable exactly when pinning was requested
(`core_id >= 0`) and setting the affinity failed; with a negative `core_id` no
affinity call is made; in every other case the callable is invoked exactly
once, with the supplied arguments, and the process is not terminated. -/
theorem create_and_start_thread_fail_fast {F A : Type} (os : HostOS) (sys : Int → Int)
    (core_id : Int) (name : String) (func : F) (args : A) :
    ((terminated (create_and_start_thread os sys core_id name func args) = true ∧
        invocations (create_and_start_thread os sys core_id name func args) = []) ↔
      (core_id ≥ 0 ∧ set_thread_core_affinity os sys core_id = false)) ∧
    (¬ (core_id ≥ 0 ∧ set_thread_core_affinity os sys core_id = false) →
      invocations (create_and_start_thread os sys core_id name func args) = [(func, args)] ∧
      terminated (create_and_start_thread os sys core_id name func args) = false) ∧
    (core_id < 0 → affinityCalls (create_and_start_thread os sys core_id name func args) = []) ∧
    (core_id ≥ 0 → affinityCalls (create_and_start_thread os sys core_id name func args) = [core_id]) := by
  by_cases hp : core_id ≥ 0
  · cases ha : set_thread_core_affinity os sys core_id <;>
      simp [create_and_start_thread, invocations, terminated, affinityCalls, hp, ha]
  · have hneg : core_id < 0 := by omega
    simp [create_and_start_thread, invocations, terminated, affinityCalls, hp, hneg]

/-! ## `listen` -/

/-- In both builds `listen()` returns normally only if `connect` returned a
non-negative status. -/
theorem listen_ok_connect (b : Backend) (s s1 : TCPServer) (env : ListenEnv)
    (h : listen b s env = .ok s1) : env.connectStatus ≥ 0 := by
  by_contra hc
  cases hs : env.slot <;>
    simp [listen, allocate, ASSERT_CONDITION, hs, hc, bind, Except.bind] at h

/-- In the epoll build `listen()` returns normally only if the kernel
accepted the registration of the listener. -/
theorem listen_epoll_ok_registered (s s1 : TCPServer) (env : ListenEnv)
    (h : listen .epoll s env = .ok s1) : env.registerOk = true := by
  by_contra hc
  cases hs : env.slot <;> by_cases hk : env.connectStatus ≥ 0 <;>
    simp [listen, allocate, ASSERT_CONDITION, addSocketToEventSystem, hs, hc, hk, bind,
      Except.bind] at h

/-- Claim C9, at the failing input. With `connect` succeeding and the kernel
rejecting the registration of the listener, the kqueue build of `listen()`
returns normally, with the listener absent from the registration table; the
epoll build aborts on the same input. -/
theorem listen_kqueue_ignores_registration_failure :
    failedRegistration.connectStatus ≥ 0 ∧ failedRegistration.registerOk = false ∧
    (∃ s, listen .kqueue freshServer failedRegistration = .ok s ∧
      s.listenerSocket_ = 1 ∧ s.interest = []) ∧
    (∀ s, listen .epoll freshServer failedRegistration ≠ .ok s) := by
  refine ⟨by decide, rfl, ⟨_, rfl, rfl, rfl⟩, ?_⟩
  intro s h
  have := listen_epoll_ok_registered _ _ _ h
  simp [failedRegistration] at this

/-! ## Insertion without duplicates -/

theorem pushIfAbsent_of_mem {v : List SocketPtr} {p : SocketPtr} (h : p ∈ v) :
    pushIfAbsent v p = v := by
  unfold pushIfAbsent
  cases hf : v.find? (fun s => s == p) with
  | some x => rfl
  | none =>
    rw [List.find?_eq_none] at hf
    exact absurd (by simp) (hf p h)

theorem pushIfAbsent_of_not_mem {v : List SocketPtr} {p : SocketPtr} (h : p ∉ v) :
    pushIfAbsent v p = v ++ [p] := by
  unfold pushIfAbsent
  cases hf : v.find? (fun s => s == p) with
  | none => rfl
  | some x =>
    have hx := List.mem_of_find?_eq_some hf
    have hp := List.find?_some hf
    simp at hp
    exact absurd (hp ▸ hx) h

theorem mem_pushIfAbsent {v : List SocketPtr} {p q : SocketPtr} :
    q ∈ pushIfAbsent v p ↔ q ∈ v ∨ q = p := by
  by_cases h : p ∈ v
  · rw [pushIfAbsent_of_mem h]
    constructor
    · exact Or.inl
    · rintro (hq | rfl)
      · exact hq
      · exact h
  · rw [pushIfAbsent_of_not_mem h]
    simp

theorem nodup_pushIfAbsent {v : List SocketPtr} (p : SocketPtr) (h : v.Nodup) :
    (pushIfAbsent v p).Nodup := by
  by_cases hp : p ∈ v
  · rw [pushIfAbsent_of_mem hp]
    exact h
  · rw [pushIfAbsent_of_not_mem hp]
    exact List.Nodup.append h (List.nodup_singleton p) (by simpa using hp)

/-! ## The event loop -/

/-- The event loop writes only the two sets. -/
theorem handleEvent_frame (acc : TCPServer × Bool) (e : Event) :
    (handleEvent acc e).1.listenerSocket_ = acc.1.listenerSocket_ ∧
    (handleEvent acc e).1.eventFd_ = acc.1.eventFd_ ∧
    (handleEvent acc e).1.recvCallback_ = acc.1.recvCallback_ ∧
    (handleEvent acc e).1.recvFinishedCallback_ = acc.1.recvFinishedCallback_ ∧
    (handleEvent acc e).1.sockets = acc.1.sockets ∧
    (handleEvent acc e).1.live = acc.1.live ∧
    (handleEvent acc e).1.interest = acc.1.interest := by
  by_cases hl : e.socket = acc.1.listenerSocket_ <;>
    cases hr : e.readReady <;> cases hw : e.writeReady <;> cases hx : e.errorHangup <;>
    simp [handleEvent, hl, hr, hw, hx]

/-- Membership in the receive set after one iteration of the event loop. -/
theorem mem_recv_handleEvent (acc : TCPServer × Bool) (e : Event) (q : SocketPtr) :
    q ∈ (handleEvent acc e).1.receiveSockets_ ↔
      q ∈ acc.1.receiveSockets_ ∨
      (q = e.socket ∧ ¬ (e.readReady = true ∧ e.socket = acc.1.listenerSocket_) ∧
        (e.readReady = true ∨ e.errorHangup = true)) := by
  by_cases hl : e.socket = acc.1.listenerSocket_ <;>
    cases hr : e.readReady <;> cases hw : e.writeReady <;> cases hx : e.errorHangup <;>
    simp [handleEvent, hl, hr, hw, hx, mem_pushIfAbsent]

/-- Membership in the send set after one iteration of the event loop. -/
theorem mem_send_handleEvent (acc : TCPServer × Bool) (e : Event) (q : SocketPtr) :
    q ∈ (handleEvent acc e).1.sendSockets_ ↔
      q ∈ acc.1.sendSockets_ ∨
      (q = e.socket ∧ ¬ (e.readReady = true ∧ e.socket = acc.1.listenerSocket_) ∧
        e.writeReady = true) := by
  by_cases hl : e.socket = acc.1.listenerSocket_ <;>
    cases hr : e.readReady <;> cases hw : e.writeReady <;> cases hx : e.errorHangup <;>
    simp [handleEvent, hl, hr, hw, hx, mem_pushIfAbsent]

/-- One iteration of the event loop keeps both sets free of duplicates. -/
theorem nodup_handleEvent (acc : TCPServer × Bool) (e : Event)
    (hr : acc.1.receiveSockets_.Nodup) (hs : acc.1.sendSockets_.Nodup) :
    (handleEvent acc e).1.receiveSockets_.Nodup ∧ (handleEvent acc e).1.sendSockets_.Nodup := by
  by_cases hl : e.socket = acc.1.listenerSocket_ <;>
    cases h1 : e.readReady <;> cases h2 : e.writeReady <;> cases h3 : e.errorHangup <;>
    simp [handleEvent, hl, h1, h2, h3, hr, hs, nodup_pushIfAbsent]

/-- The flag `haveNewConnection` after one iteration. -/
theorem handleEvent_flag (acc : TCPServer × Bool) (e : Event) :
    (handleEvent acc e).2 =
      (acc.2 || (e.readReady && e.socket == acc.1.listenerSocket_)) := by
  by_cases hl : e.socket = acc.1.listenerSocket_ <;>
    cases hr : e.readReady <;> cases hw : e.writeReady <;> cases hx : e.errorHangup <;>
    simp [handleEvent, hl, hr, hw, hx]

theorem foldl_handleEvent_frame (evs : List Event) (acc : TCPServer × Bool) :
    (evs.foldl handleEvent acc).1.listenerSocket_ = acc.1.listenerSocket_ ∧
    (evs.foldl handleEvent acc).1.eventFd_ = acc.1.eventFd_ ∧
    (evs.foldl handleEvent acc).1.recvCallback_ = acc.1.recvCallback_ ∧
    (evs.foldl handleEvent acc).1.recvFinishedCallback_ = acc.1.recvFinishedCallback_ ∧
    (evs.foldl handleEvent acc).1.sockets = acc.1.sockets ∧
    (evs.foldl handleEvent acc).1.live = acc.1.live ∧
    (evs.foldl handleEvent acc).1.interest = acc.1.interest := by
  induction evs generalizing acc with
  | nil => simp
  | cons e rest ih =>
    have h1 := handleEvent_frame acc e
    have h2 := ih (handleEvent acc e)
    simp only [List.foldl_cons]
    obtain ⟨a1, a2, a3, a4, a5, a6, a7⟩ := h1
    obtain ⟨b1, b2, b3, b4, b5, b6, b7⟩ := h2
    exact ⟨b1.trans a1, b2.trans a2, b3.trans a3, b4.trans a4, b5.trans a5, b6.trans a6,
      b7.trans a7⟩

theorem mem_recv_foldl_handleEvent (evs : List Event) (acc : TCPServer × Bool) (q : SocketPtr) :
    q ∈ (evs.foldl handleEvent acc).1.receiveSockets_ ↔
      q ∈ acc.1.receiveSockets_ ∨
      ∃ e ∈ evs, q = e.socket ∧ ¬ (e.readReady = true ∧ e.socket = acc.1.listenerSocket_) ∧
        (e.readReady = true ∨ e.errorHangup = true) := by
  induction evs generalizing acc with
  | nil => simp
  | cons e rest ih =>
    simp only [List.foldl_cons]
    rw [ih (handleEvent acc e), mem_recv_handleEvent, (handleEvent_frame acc e).1]
    simp only [List.mem_cons, exists_eq_or_imp]
    exact or_assoc

theorem mem_send_foldl_handleEvent (evs : List Event) (acc : TCPServer × Bool) (q : SocketPtr) :
    q ∈ (evs.foldl handleEvent acc).1.sendSockets_ ↔
      q ∈ acc.1.sendSockets_ ∨
      ∃ e ∈ evs, q = e.socket ∧ ¬ (e.readReady = true ∧ e.socket = acc.1.listenerSocket_) ∧
        e.writeReady = true := by
  induction evs generalizing acc with
  | nil => simp
  | cons e rest ih =>
    simp only [List.foldl_cons]
    rw [ih (handleEvent acc e), mem_send_handleEvent, (handleEvent_frame acc e).1]
    simp only [List.mem_cons, exists_eq_or_imp]
    exact or_assoc

theorem nodup_foldl_handleEvent (evs : List Event) (acc : TCPServer × Bool)
    (hr : acc.1.receiveSockets_.Nodup) (hs : acc.1.sendSockets_.Nodup) :
    (evs.foldl handleEvent acc).1.receiveSockets_.Nodup ∧
    (evs.foldl handleEvent acc).1.sendSockets_.Nodup := by
  induction evs generalizing acc with
  | nil => exact ⟨hr, hs⟩
  | cons e rest ih =>
    simp only [List.foldl_cons]
    exact ih _ (nodup_handleEvent acc e hr hs).1 (nodup_handleEvent acc e hr hs).2

theorem foldl_handleEvent_flag (evs : List Event) (acc : TCPServer × Bool) :
    (evs.foldl handleEvent acc).2 =
      (acc.2 || evs.any (fun e => e.readReady && e.socket == acc.1.listenerSocket_)) := by
  induction evs generalizing acc with
  | nil => simp
  | cons e rest ih =>
    simp only [List.foldl_cons, List.any_cons]
    rw [ih (handleEvent acc e), handleEvent_flag, (handleEvent_frame acc e).1, Bool.or_assoc]

/-- The flag `haveNewConnection` after the event loop: set exactly when the
batch holds a read-ready event of the listener. -/
theorem processEvents_flag (s : TCPServer) (evs : List Event) :
    (processEvents s evs).2 = true ↔
      ∃ e ∈ evs, e.readReady = true ∧ e.socket = s.listenerSocket_ := by
  unfold processEvents
  rw [foldl_handleEvent_flag]
  simp

/-! ## The accept loop -/

/-- What one successful iteration of the accept loop has done. -/
theorem acceptOne_ok (b : Backend) (s s1 : TCPServer) (a : Accepted)
    (h : acceptOne b s a = .ok s1) :
    ∃ p, a.slot = some p ∧ a.nonBlockingOk = true ∧ a.noDelayOk = true ∧
      s1.receiveSockets_ = pushIfAbsent s.receiveSockets_ p ∧
      s1.sendSockets_ = s.sendSockets_ ∧
      s1.listenerSocket_ = s.listenerSocket_ ∧
      s1.eventFd_ = s.eventFd_ ∧
      s1.recvCallback_ = s.recvCallback_ ∧
      s1.recvFinishedCallback_ = s.recvFinishedCallback_ ∧
      s1.sockets p = { socketFd := a.fd, recvCallback := s.recvCallback_ } ∧
      (∀ q, q ≠ p → s1.sockets q = s.sockets q) ∧
      s1.live = s.live ++ [p] ∧
      s1.interest = (if a.registerOk then s.interest ++ [p] else s.interest) ∧
      (b = .epoll → a.registerOk = true) := by
  cases hs : a.slot with
  | none =>
    cases h1 : a.nonBlockingOk <;> cases h2 : a.noDelayOk <;>
      simp [acceptOne, allocate, ASSERT_CONDITION, hs, h1, h2, bind, Except.bind] at h
  | some p =>
    refine ⟨p, rfl, ?_⟩
    cases h1 : a.nonBlockingOk <;> cases h2 : a.noDelayOk <;> cases h3 : a.registerOk <;>
      cases b <;>
      simp [acceptOne, allocate, ASSERT_CONDITION, addSocketToEventSystem, hs, h1, h2, h3, bind,
        Except.bind, pure, Except.pure] at h <;>
      subst h <;> simp +contextual

/-- An iteration of the accept loop in which every step succeeds returns. -/
theorem acceptOne_good (b : Backend) (s : TCPServer) (a : Accepted) (p : SocketPtr)
    (h1 : a.nonBlockingOk = true) (h2 : a.noDelayOk = true) (hs : a.slot = some p)
    (h3 : a.registerOk = true) :
    ∃ s1, acceptOne b s a = .ok s1 := by
  cases b <;>
    simp [acceptOne, allocate, ASSERT_CONDITION, addSocketToEventSystem, hs, h1, h2, h3, bind,
      Except.bind, pure, Except.pure]

/-- A property kept by every successful iteration of the accept loop holds
when the loop returns. -/
theorem acceptLoop_induction (b : Backend) (P : TCPServer → Prop)
    (hstep : ∀ s a s1, P s → acceptOne b s a = .ok s1 → P s1)
    (accepts : List Accepted) (s s1 : TCPServer)
    (h0 : P s) (h : acceptLoop b s accepts = .ok s1) : P s1 := by
  induction accepts generalizing s with
  | nil =>
    simp only [acceptLoop, Except.ok.injEq] at h
    exact h ▸ h0
  | cons a rest ih =>
    unfold acceptLoop at h
    by_cases hfd : a.fd = -1
    · simp only [hfd, if_true, Except.ok.injEq] at h
      exact h ▸ h0
    · simp only [hfd, if_false] at h
      cases hone : acceptOne b s a with
      | error e => simp [hone] at h
      | ok s2 =>
        simp only [hone] at h
        exact ih s2 (hstep s a s2 h0 hone) h

/-- The accept loop keeps both sets free of duplicates. -/
theorem acceptLoop_nodup (b : Backend) (accepts : List Accepted) (s s1 : TCPServer)
    (hr : s.receiveSockets_.Nodup) (hs : s.sendSockets_.Nodup)
    (h : acceptLoop b s accepts = .ok s1) :
    s1.receiveSockets_.Nodup ∧ s1.sendSockets_.Nodup := by
  refine acceptLoop_induction b
    (fun t => t.receiveSockets_.Nodup ∧ t.sendSockets_.Nodup) ?_ accepts s s1 ⟨hr, hs⟩ h
  intro t a t1 ht hone
  obtain ⟨p, -, -, -, hrecv, hsend, -⟩ := acceptOne_ok b t t1 a hone
  rw [hrecv, hsend]
  exact ⟨nodup_pushIfAbsent p ht.1, ht.2⟩

/-- The accept loop removes nothing from the receive set and does not write
the send set. -/
theorem acceptLoop_mono (b : Backend) (accepts : List Accepted) (s s1 : TCPServer)
    (h : acceptLoop b s accepts = .ok s1) :
    (∀ q, q ∈ s.receiveSockets_ → q ∈ s1.receiveSockets_) ∧
    s1.sendSockets_ = s.sendSockets_ := by
  refine acceptLoop_induction b
    (fun t => (∀ q, q ∈ s.receiveSockets_ → q ∈ t.receiveSockets_) ∧
      t.sendSockets_ = s.sendSockets_) ?_ accepts s s1 ⟨fun _ hq => hq, rfl⟩ h
  intro t a t1 ht hone
  obtain ⟨p, -, -, -, hrecv, hsend, -⟩ := acceptOne_ok b t t1 a hone
  rw [hrecv, hsend]
  exact ⟨fun q hq => mem_pushIfAbsent.mpr (Or.inl (ht.1 q hq)), ht.2⟩

/-- With every step succeeding and fresh pool handles, the accept loop
returns, having appended the new handles to the receive set in accept order
and bound each descriptor and the receive callback of the server. -/
theorem acceptLoop_good (b : Backend) (accepts : List Accepted) (s : TCPServer)
    (hgood : ∀ a ∈ accepts, a.fd ≠ -1 ∧ a.nonBlockingOk = true ∧ a.noDelayOk = true ∧
      a.slot.isSome = true ∧ a.registerOk = true)
    (hdistinct : (accepts.filterMap Accepted.slot).Nodup)
    (hfresh : ∀ p ∈ accepts.filterMap Accepted.slot, p ∉ s.receiveSockets_) :
    ∃ s1, acceptLoop b s accepts = .ok s1 ∧
      s1.receiveSockets_ = s.receiveSockets_ ++ accepts.filterMap Accepted.slot ∧
      s1.sendSockets_ = s.sendSockets_ ∧
      s1.recvCallback_ = s.recvCallback_ ∧
      s1.live = s.live ++ accepts.filterMap Accepted.slot ∧
      s1.interest = s.interest ++ accepts.filterMap Accepted.slot ∧
      (∀ a ∈ accepts, ∀ p, a.slot = some p →
        s1.sockets p = { socketFd := a.fd, recvCallback := s.recvCallback_ }) ∧
      (∀ q, q ∉ accepts.filterMap Accepted.slot → s1.sockets q = s.sockets q) := by
  induction accepts generalizing s with
  | nil => exact ⟨s, rfl, by simp, rfl, rfl, by simp, by simp, by simp, by simp⟩
  | cons a rest ih =>
    obtain ⟨hfd, hnb, hnd, hsl, hreg⟩ := hgood a (List.mem_cons_self a rest)
    obtain ⟨p, hp⟩ := Option.isSome_iff_exists.mp hsl
    have hslots : (a :: rest).filterMap Accepted.slot = p :: rest.filterMap Accepted.slot := by
      simp [List.filterMap_cons, hp]
    rw [hslots] at hdistinct hfresh
    obtain ⟨t, ht⟩ := acceptOne_good b s a p hnb hnd hp hreg
    obtain ⟨p1, hp1, -, -, hrecv, hsend, -, -, hcb, -, hsock, hother, hlive, hint, -⟩ :=
      acceptOne_ok b s t a ht
    have hpp : p1 = p := by
      rw [hp] at hp1
      exact (Option.some.inj hp1).symm
    subst hpp
    have hpnot : p1 ∉ s.receiveSockets_ := hfresh p1 (List.mem_cons_self _ _)
    rw [pushIfAbsent_of_not_mem hpnot] at hrecv
    rw [hreg] at hint
    simp only [if_true] at hint
    have hnd1 := List.nodup_cons.mp hdistinct
    obtain ⟨s1, hloop, h1, h2, h3, h4, h5, h6, h7⟩ := ih t
      (fun x hx => hgood x (List.mem_cons_of_mem a hx)) hnd1.2
      (by
        intro q hq
        rw [hrecv]
        intro hmem
        rcases List.mem_append.mp hmem with hm | hm
        · exact hfresh q (List.mem_cons_of_mem _ hq) hm
        · have hqp : q = p1 := by simpa using hm
          exact hnd1.1 (hqp ▸ hq))
    refine ⟨s1, ?_, ?_, ?_, ?_, ?_, ?_, ?_, ?_⟩
    · unfold acceptLoop
      simp only [hfd, if_false, ht]
      exact hloop
    · rw [h1, hrecv, hslots]
      simp
    · rw [h2, hsend]
    · rw [h3, hcb]
    · rw [h4, hlive, hslots]
      simp
    · rw [h5, hint, hslots]
      simp
    · intro x hx q hq
      rcases List.mem_cons.mp hx with rfl | hx
      · have hqp : q = p1 := by
          rw [hp] at hq
          exact (Option.some.inj hq).symm
        subst hqp
        rw [h7 q hnd1.1, hsock]
      · rw [h6 x hx q hq, hcb]
    · intro q hq
      rw [hslots] at hq
      have hq1 : q ≠ p1 := fun hc => hq (hc ▸ List.mem_cons_self _ _)
      have hq2 : q ∉ rest.filterMap Accepted.slot := fun hc => hq (List.mem_cons_of_mem _ hc)
      rw [h7 q hq2, hother q hq1]

/-- The receive set has no duplicates when `poll()` returns, if it had none
on entry. -/
theorem poll_membership_nodup_aux (b : Backend) (s s1 : TCPServer) (ready : List Event)
    (accepts : List Accepted) (hr : s.receiveSockets_.Nodup)
    (h : poll b s ready accepts = .ok s1) : s1.receiveSockets_.Nodup := by
  have hev : (processEvents s (eventBatch s ready)).1.receiveSockets_.Nodup := by
    unfold processEvents
    generalize eventBatch s ready = evs
    generalize hacc : (s, false) = acc
    have hr1 : acc.1.receiveSockets_.Nodup := by rw [← hacc]; exact hr
    clear hacc hr h
    induction evs generalizing acc with
    | nil => exact hr1
    | cons e rest ih =>
      simp only [List.foldl_cons]
      apply ih
      by_cases hl : e.socket = acc.1.listenerSocket_ <;>
        cases h1 : e.readReady <;> cases h2 : e.writeReady <;> cases h3 : e.errorHangup <;>
        simp [handleEvent, hl, h1, h2, h3, hr1, nodup_pushIfAbsent]
  unfold poll at h
  by_cases hf : (processEvents s (eventBatch s ready)).2 = true
  · simp only [hf, if_true] at h
    refine acceptLoop_induction b (fun t => t.receiveSockets_.Nodup) ?_ accepts _ s1 hev h
    intro t a t1 ht hone
    obtain ⟨p, -, -, -, hrecv, -⟩ := acceptOne_ok b t t1 a hone
    rw [hrecv]
    exact nodup_pushIfAbsent p ht
  · simp only [hf] at h
    simp only [Bool.false_eq_true, if_false, Except.ok.injEq] at h
    exact h ▸ hev

/-! ## `poll` -/

/-- Claim C1. Idempotent membership: from a state whose receive set and send
set have no duplicates, for every list of ready events (repeated events for a
socket included) and every sequence of accepted connections, each socket is
at most once in the receive set and at most once in the send set when
`poll()` returns. -/
theorem poll_membership_nodup (b : Backend) (s s1 : TCPServer) (ready : List Event)
    (accepts : List Accepted)
    (hr : s.receiveSockets_.Nodup) (hs : s.sendSockets_.Nodup)
    (h : poll b s ready accepts = .ok s1) :
    s1.receiveSockets_.Nodup ∧ s1.sendSockets_.Nodup := by
  have hev := nodup_foldl_handleEvent (eventBatch s ready) (s, false) hr hs
  unfold poll at h
  by_cases hf : (processEvents s (eventBatch s ready)).2 = true
  · simp only [hf, if_true] at h
    exact acceptLoop_nodup b accepts _ s1 hev.1 hev.2 h
  · simp only [hf] at h
    simp only [Bool.false_eq_true, if_false, Except.ok.injEq] at h
    exact h ▸ hev

/-- Instance of C1: the peer in slot 2 is in both sets, the batch repeats its
read and write events, and one client is accepted into slot 3. -/
theorem poll_membership_nodup_witness :
    busyServer.receiveSockets_.Nodup ∧ busyServer.sendSockets_.Nodup ∧
    ∃ s1, poll .epoll busyServer repeatedEvents [goodAccept 6 3] = .ok s1 ∧
      s1.receiveSockets_ = [2, 3] ∧ s1.sendSockets_ = [2] ∧
      s1.receiveSockets_.Nodup ∧ s1.sendSockets_.Nodup :=
  ⟨by decide, by decide, _, rfl, rfl, rfl,
    poll_membership_nodup .epoll busyServer _ repeatedEvents [goodAccept 6 3]
      (by decide) (by decide) rfl⟩

/-- Claim C2. Accept draining: if the batch of a `poll()` call holds a
read-ready event of the listener and `accept()` yields N valid descriptors
before returning -1, with mode setting, pool allocation (fresh handles) and
registration all succeeding, then `poll()` returns, all N handles are
allocated and registered, they are at the end of the receive set in accept
order, and each has its descriptor bound and the receive callback of the
server assigned. -/
theorem poll_accept_draining (b : Backend) (s : TCPServer) (ready : List Event)
    (accepts : List Accepted)
    (hlistener : ∃ e ∈ eventBatch s ready, e.readReady = true ∧ e.socket = s.listenerSocket_)
    (hgood : ∀ a ∈ accepts, a.fd ≠ -1 ∧ a.nonBlockingOk = true ∧ a.noDelayOk = true ∧
      a.slot.isSome = true ∧ a.registerOk = true)
    (hdistinct : (accepts.filterMap Accepted.slot).Nodup)
    (hfresh : ∀ p ∈ accepts.filterMap Accepted.slot,
      p ∉ s.receiveSockets_ ∧ ∀ e ∈ eventBatch s ready, e.socket ≠ p) :
    ∃ s1, poll b s ready accepts = .ok s1 ∧
      (accepts.filterMap Accepted.slot).length = accepts.length ∧
      s1.receiveSockets_ =
        (processEvents s (eventBatch s ready)).1.receiveSockets_ ++
          accepts.filterMap Accepted.slot ∧
      s1.live = s.live ++ accepts.filterMap Accepted.slot ∧
      s1.interest = s.interest ++ accepts.filterMap Accepted.slot ∧
      (∀ a ∈ accepts, ∀ p, a.slot = some p →
        p ∈ s1.receiveSockets_ ∧
        s1.sockets p = { socketFd := a.fd, recvCallback := s.recvCallback_ }) := by
  have hflag := (processEvents_flag s (eventBatch s ready)).mpr hlistener
  have hframe := foldl_handleEvent_frame (eventBatch s ready) (s, false)
  obtain ⟨-, -, fcb, -, fsock, flive, fint⟩ := hframe
  have hfresh1 : ∀ p ∈ accepts.filterMap Accepted.slot,
      p ∉ (processEvents s (eventBatch s ready)).1.receiveSockets_ := by
    intro p hp hmem
    unfold processEvents at hmem
    rw [mem_recv_foldl_handleEvent] at hmem
    rcases hmem with hm | ⟨e, he, hpe, -⟩
    · exact (hfresh p hp).1 hm
    · exact (hfresh p hp).2 e he hpe.symm
  obtain ⟨s1, hloop, h1, -, h3, h4, h5, h6, -⟩ :=
    acceptLoop_good b accepts (processEvents s (eventBatch s ready)).1 hgood hdistinct hfresh1
  have hlen : (accepts.filterMap Accepted.slot).length = accepts.length := by
    clear hloop h1 h3 h4 h5 h6 hfresh1 hfresh hdistinct
    induction accepts with
    | nil => rfl
    | cons a rest ih =>
      obtain ⟨-, -, -, hsl, -⟩ := hgood a (List.mem_cons_self a rest)
      obtain ⟨p, hp⟩ := Option.isSome_iff_exists.mp hsl
      simp only [List.filterMap_cons, hp, List.length_cons]
      rw [ih (fun x hx => hgood x (List.mem_cons_of_mem a hx))]
  refine ⟨s1, ?_, hlen, h1, ?_, ?_, ?_⟩
  · unfold poll
    simp only [hflag, if_true]
    exact hloop
  · rw [h4]
    unfold processEvents
    rw [flive]
  · rw [h5]
    unfold processEvents
    rw [fint]
  · intro a ha p hp
    constructor
    · rw [h1]
      exact List.mem_append.mpr (Or.inr (List.mem_filterMap.mpr ⟨a, ha, hp⟩))
    · rw [h6 a ha p hp]
      unfold processEvents
      rw [fcb]

/-- Instance of C2: pool of capacity 4 with the listener in slot 1, three
pending clients; one `poll()` accepts all three and the receive set has
size 3. -/
theorem poll_accept_draining_witness :
    ∃ s1, poll .epoll listeningServer [Event.epoll EPOLLIN 1] threeClients = .ok s1 ∧
      s1.receiveSockets_ = [2, 3, 4] ∧ s1.receiveSockets_.length = 3 ∧
      s1.live = [1, 2, 3, 4] ∧
      s1.sockets 3 = { socketFd := 6, recvCallback := some 100 } := by
  obtain ⟨s1, hpoll, -, hrecv, hlive, -, hsock⟩ :=
    poll_accept_draining .epoll listeningServer [Event.epoll EPOLLIN 1] threeClients
      ⟨Event.epoll EPOLLIN 1, by decide, by decide, rfl⟩ (by decide) (by decide) (by decide)
  refine ⟨s1, hpoll, ?_, ?_, ?_, ?_⟩
  · rw [hrecv]
    rfl
  · rw [hrecv]
    rfl
  · rw [hlive]
    rfl
  · exact (hsock (goodAccept 6 3) (by decide) 3 rfl).2

/-- The accept loop does not write `listenerSocket_`. -/
theorem acceptLoop_listener (b : Backend) (accepts : List Accepted) (s s1 : TCPServer)
    (h : acceptLoop b s accepts = .ok s1) : s1.listenerSocket_ = s.listenerSocket_ := by
  refine acceptLoop_induction b (fun t => t.listenerSocket_ = s.listenerSocket_) ?_
    accepts s s1 rfl h
  intro t a t1 ht hone
  obtain ⟨p, -, -, -, -, -, hl, -⟩ := acceptOne_ok b t t1 a hone
  rw [hl, ht]

/-- A socket that is in the receive set when the accept loop returns was
there on entry or is the pool handle of an accepted connection. -/
theorem acceptLoop_recv_origin (b : Backend) (accepts : List Accepted) (s s1 : TCPServer)
    (h : acceptLoop b s accepts = .ok s1) (q : SocketPtr) (hq : q ∈ s1.receiveSockets_) :
    q ∈ s.receiveSockets_ ∨ ∃ a ∈ accepts, a.slot = some q := by
  induction accepts generalizing s with
  | nil =>
    simp only [acceptLoop, Except.ok.injEq] at h
    exact Or.inl (h ▸ hq)
  | cons a rest ih =>
    unfold acceptLoop at h
    by_cases hfd : a.fd = -1
    · simp only [hfd, if_true, Except.ok.injEq] at h
      exact Or.inl (h ▸ hq)
    · simp only [hfd, if_false] at h
      cases hone : acceptOne b s a with
      | error e => simp [hone] at h
      | ok t =>
        simp only [hone] at h
        obtain ⟨p, hp, -, -, hrecv, -⟩ := acceptOne_ok b s t a hone
        rcases ih t h with hm | ⟨x, hx, hxs⟩
        · rw [hrecv] at hm
          rcases mem_pushIfAbsent.mp hm with hm1 | hm1
          · exact Or.inl hm1
          · exact Or.inr ⟨a, List.mem_cons_self a rest, hm1 ▸ hp⟩
        · exact Or.inr ⟨x, List.mem_cons_of_mem a hx, hxs⟩

/-- The event loop keeps the listener out of both sets when every event of
the listener is read-ready. -/
theorem processEvents_listener_absent (s : TCPServer) (evs : List Event)
    (hread : ∀ e ∈ evs, e.socket = s.listenerSocket_ → e.readReady = true)
    (hr : s.listenerSocket_ ∉ s.receiveSockets_) (hs : s.listenerSocket_ ∉ s.sendSockets_) :
    s.listenerSocket_ ∉ (processEvents s evs).1.receiveSockets_ ∧
    s.listenerSocket_ ∉ (processEvents s evs).1.sendSockets_ := by
  unfold processEvents
  constructor
  · rw [mem_recv_foldl_handleEvent]
    rintro (h | ⟨e, he, hq, hn, -⟩)
    · exact hr h
    · exact hn ⟨hread e he hq.symm, hq.symm⟩
  · rw [mem_send_foldl_handleEvent]
    rintro (h | ⟨e, he, hq, hn, -⟩)
    · exact hs h
    · exact hn ⟨hread e he hq.symm, hq.symm⟩

/-- Claim C6, amended. From a state in which the listener is in neither set,
for every batch in which each event whose socket is the listener is
read-ready (whatever else it carries), and with the pool handing out no
handle equal to the listener, the listener is in neither the receive set nor
the send set when `poll()` returns. -/
theorem poll_listener_stays_out (b : Backend) (s s1 : TCPServer) (ready : List Event)
    (accepts : List Accepted)
    (hr : s.listenerSocket_ ∉ s.receiveSockets_) (hs : s.listenerSocket_ ∉ s.sendSockets_)
    (hread : ∀ e ∈ eventBatch s ready, e.socket = s.listenerSocket_ → e.readReady = true)
    (hslot : ∀ a ∈ accepts, a.slot ≠ some s.listenerSocket_)
    (h : poll b s ready accepts = .ok s1) :
    s1.listenerSocket_ = s.listenerSocket_ ∧
    s1.listenerSocket_ ∉ s1.receiveSockets_ ∧ s1.listenerSocket_ ∉ s1.sendSockets_ := by
  obtain ⟨hev1, hev2⟩ := processEvents_listener_absent s (eventBatch s ready) hread hr hs
  have hl : (processEvents s (eventBatch s ready)).1.listenerSocket_ = s.listenerSocket_ :=
    (foldl_handleEvent_frame (eventBatch s ready) (s, false)).1
  unfold poll at h
  by_cases hf : (processEvents s (eventBatch s ready)).2 = true
  · simp only [hf, if_true] at h
    have hl1 := (acceptLoop_listener b accepts _ s1 h).trans hl
    have hsend := (acceptLoop_mono b accepts _ s1 h).2
    refine ⟨hl1, ?_, ?_⟩
    · rw [hl1]
      intro hmem
      rcases acceptLoop_recv_origin b accepts _ s1 h _ hmem with hm | ⟨a, ha, hsl⟩
      · exact hev1 hm
      · exact hslot a ha hsl
    · rw [hl1, hsend]
      exact hev2
  · simp only [hf] at h
    simp only [Bool.false_eq_true, if_false, Except.ok.injEq] at h
    subst h
    exact ⟨hl, by rw [hl]; exact hev1, by rw [hl]; exact hev2⟩

/-- Instance of C6, amended: an event of the listener (slot 1) that is
read-ready, write-ready and in error at once, a write event of the peer in
slot 2, and one client accepted into slot 3. -/
theorem poll_listener_stays_out_witness :
    ∃ s1, poll .epoll busyServer
        [Event.epoll (EPOLLIN ||| EPOLLOUT ||| EPOLLERR) 1, Event.epoll EPOLLOUT 2]
        [goodAccept 6 3] = .ok s1 ∧
      s1.receiveSockets_ = [2, 3] ∧ s1.sendSockets_ = [2] ∧
      s1.listenerSocket_ ∉ s1.receiveSockets_ ∧ s1.listenerSocket_ ∉ s1.sendSockets_ :=
  ⟨_, rfl, rfl, rfl,
    (poll_listener_stays_out .epoll busyServer _
      [Event.epoll (EPOLLIN ||| EPOLLOUT ||| EPOLLERR) 1, Event.epoll EPOLLOUT 2]
      [goodAccept 6 3] (by decide) (by decide) (by decide) (by decide) rfl).2⟩

/-- Claim C6 as stated fails: the claim covers every combination an event of
the listener may carry. Right after `listen()`, with the listener in neither
set, a batch holding a write event of the listener that is not read-ready
(kqueue build, write filter) leaves the listener in the send set. -/
theorem poll_listener_added_without_read_event :
    ¬ (∀ (b : Backend) (s s1 : TCPServer) (ready : List Event) (accepts : List Accepted),
        s.listenerSocket_ ∉ s.receiveSockets_ → s.listenerSocket_ ∉ s.sendSockets_ →
        poll b s ready accepts = .ok s1 →
        s1.listenerSocket_ ∉ s1.receiveSockets_ ∧ s1.listenerSocket_ ∉ s1.sendSockets_) := by
  intro h
  have hc := h .kqueue listeningServer _ [Event.kevent EVFILT_WRITE 0 1] []
    (by decide) (by decide) rfl
  revert hc
  decide

/-- The same on three inputs: a write event of the listener alone puts the
listener in the send set in both builds, an error event alone (`EPOLLERR`)
puts it in the receive set. -/
theorem poll_listener_events_evaluated :
    (∃ s1, poll .kqueue listeningServer [Event.kevent EVFILT_WRITE 0 1] [] = .ok s1 ∧
      s1.listenerSocket_ = 1 ∧ s1.sendSockets_ = [1]) ∧
    (∃ s1, poll .epoll listeningServer [Event.epoll EPOLLOUT 1] [] = .ok s1 ∧
      s1.listenerSocket_ = 1 ∧ s1.sendSockets_ = [1]) ∧
    (∃ s1, poll .epoll listeningServer [Event.epoll EPOLLERR 1] [] = .ok s1 ∧
      s1.listenerSocket_ = 1 ∧ s1.receiveSockets_ = [1]) :=
  ⟨⟨_, rfl, rfl, rfl⟩, ⟨_, rfl, rfl, rfl⟩, ⟨_, rfl, rfl, rfl⟩⟩

/-- Claim C7. Event classification: for every event of the batch whose socket
is not the listener, when `poll()` returns the socket is in the receive set
if the event was read-ready, in the send set if it was write-ready, in the
receive set if it carried error or hangup; a socket that is read-ready and in
error at once is in the receive set once; and the event loop puts a socket
in a set only for an event of that socket with one of these reasons. -/
theorem poll_event_classification (b : Backend) (s s1 : TCPServer) (ready : List Event)
    (accepts : List Accepted) (e : Event)
    (h : poll b s ready accepts = .ok s1)
    (he : e ∈ eventBatch s ready)
    (hne : e.socket ≠ s.listenerSocket_) :
    (e.readReady = true → e.socket ∈ s1.receiveSockets_) ∧
    (e.writeReady = true → e.socket ∈ s1.sendSockets_) ∧
    (e.errorHangup = true → e.socket ∈ s1.receiveSockets_) ∧
    (e.readReady = true → e.errorHangup = true → s.receiveSockets_.Nodup →
      s1.receiveSockets_.count e.socket = 1) ∧
    (∀ q, q ∈ (processEvents s (eventBatch s ready)).1.receiveSockets_ →
      q ∈ s.receiveSockets_ ∨
      ∃ e2 ∈ eventBatch s ready, e2.socket = q ∧
        (e2.readReady = true ∨ e2.errorHangup = true)) ∧
    (∀ q, q ∈ (processEvents s (eventBatch s ready)).1.sendSockets_ →
      q ∈ s.sendSockets_ ∨
      ∃ e2 ∈ eventBatch s ready, e2.socket = q ∧ e2.writeReady = true) := by
  have hrecv : ∀ q, q ∈ (processEvents s (eventBatch s ready)).1.receiveSockets_ →
      q ∈ s1.receiveSockets_ := by
    intro q hq
    unfold poll at h
    by_cases hf : (processEvents s (eventBatch s ready)).2 = true
    · simp only [hf, if_true] at h
      exact (acceptLoop_mono b accepts _ s1 h).1 q hq
    · simp only [hf] at h
      simp only [Bool.false_eq_true, if_false, Except.ok.injEq] at h
      exact h ▸ hq
  have hsend : s1.sendSockets_ = (processEvents s (eventBatch s ready)).1.sendSockets_ := by
    unfold poll at h
    by_cases hf : (processEvents s (eventBatch s ready)).2 = true
    · simp only [hf, if_true] at h
      exact (acceptLoop_mono b accepts _ s1 h).2
    · simp only [hf] at h
      simp only [Bool.false_eq_true, if_false, Except.ok.injEq] at h
      rw [← h]
  have hnl : ¬ (e.readReady = true ∧ e.socket = s.listenerSocket_) := fun hc => hne hc.2
  have hin : (e.readReady = true ∨ e.errorHangup = true) → e.socket ∈ s1.receiveSockets_ := by
    intro hre
    apply hrecv
    unfold processEvents
    rw [mem_recv_foldl_handleEvent]
    exact Or.inr ⟨e, he, rfl, hnl, hre⟩
  refine ⟨fun hr => hin (Or.inl hr), ?_, fun hx => hin (Or.inr hx), ?_, ?_, ?_⟩
  · intro hw
    rw [hsend]
    unfold processEvents
    rw [mem_send_foldl_handleEvent]
    exact Or.inr ⟨e, he, rfl, hnl, hw⟩
  · intro hr _ hnd
    have hnd1 := (poll_membership_nodup_aux b s s1 ready accepts hnd h)
    exact List.count_eq_one_of_mem hnd1 (hin (Or.inl hr))
  · intro q hq
    unfold processEvents at hq
    rw [mem_recv_foldl_handleEvent] at hq
    rcases hq with hq | ⟨e2, he2, hqe, -, hre⟩
    · exact Or.inl hq
    · exact Or.inr ⟨e2, he2, hqe.symm, hre⟩
  · intro q hq
    unfold processEvents at hq
    rw [mem_send_foldl_handleEvent] at hq
    rcases hq with hq | ⟨e2, he2, hqe, -, hw⟩
    · exact Or.inl hq
    · exact Or.inr ⟨e2, he2, hqe.symm, hw⟩

/-- Instance of C7: an event of the peer in slot 2 that is read-ready,
write-ready and in error at once. -/
theorem poll_event_classification_witness :
    ∃ s1, poll .epoll idleServer [Event.epoll (EPOLLIN ||| EPOLLOUT ||| EPOLLERR) 2] [] = .ok s1 ∧
      2 ∈ s1.receiveSockets_ ∧ 2 ∈ s1.sendSockets_ ∧ s1.receiveSockets_.count 2 = 1 := by
  have hc := poll_event_classification .epoll idleServer _
    [Event.epoll (EPOLLIN ||| EPOLLOUT ||| EPOLLERR) 2] []
    (Event.epoll (EPOLLIN ||| EPOLLOUT ||| EPOLLERR) 2) rfl (by decide) (by decide)
  exact ⟨_, rfl, hc.1 (by decide), hc.2.1 (by decide),
    hc.2.2.2.1 (by decide) (by decide) (by decide)⟩

/-! ## `sendAndReceive` -/

theorem reporters_sublist (env : ExchangeEnv) (k : Nat) (v : List SocketPtr) :
    (reporters env k v).Sublist v := by
  induction v generalizing k with
  | nil => exact List.Sublist.refl _
  | cons p rest ih =>
    unfold reporters
    by_cases h : env.received k = true
    · simp only [h, if_true]
      exact (ih (k + 1)).cons₂ p
    · simp only [h]
      exact (ih (k + 1)).cons p

theorem mem_reporters (env : ExchangeEnv) (k : Nat) (v : List SocketPtr) (p : SocketPtr) :
    p ∈ reporters env k v ↔ ∃ i, v[i]? = some p ∧ env.received (k + i) = true := by
  induction v generalizing k with
  | nil => simp [reporters]
  | cons q rest ih =>
    unfold reporters
    constructor
    · intro h
      by_cases hk : env.received k = true
      · simp only [hk, if_true, List.mem_cons] at h
        rcases h with rfl | h
        · exact ⟨0, by simp, by simpa using hk⟩
        · obtain ⟨i, hi, hr⟩ := (ih (k + 1)).mp h
          exact ⟨i + 1, by simpa using hi, by rw [← hr]; congr 1; omega⟩
      · simp only [hk] at h
        obtain ⟨i, hi, hr⟩ := (ih (k + 1)).mp h
        exact ⟨i + 1, by simpa using hi, by rw [← hr]; congr 1; omega⟩
    · rintro ⟨i, hi, hr⟩
      cases i with
      | zero =>
        simp only [List.getElem?_cons_zero, Option.some.injEq] at hi
        simp only [Nat.add_zero] at hr
        simp [hr, hi]
      | succ j =>
        simp only [List.getElem?_cons_succ] at hi
        have hmem : p ∈ reporters env (k + 1) rest :=
          (ih (k + 1)).mpr ⟨j, hi, by rw [← hr]; congr 1; omega⟩
        by_cases hk : env.received k = true
        · simp only [hk, if_true]
          exact List.mem_cons_of_mem _ hmem
        · simp only [hk]
          exact hmem

/-- The loop over the receive set, started in the cycle state `c`. -/
theorem foldl_recvStep (cb : Option CallbackId) (env : ExchangeEnv) (v : List SocketPtr)
    (c : Cycle) :
    (v.foldl (recvStep cb env) c).calls = c.calls + v.length ∧
    exchangedSockets (v.foldl (recvStep cb env) c).trace = exchangedSockets c.trace ++ v ∧
    finishedCalls (v.foldl (recvStep cb env) c).trace = finishedCalls c.trace ∧
    ((v.foldl (recvStep cb env) c).receivedData = true ↔
      (c.receivedData = true ∨ ∃ i, i < v.length ∧ env.received (c.calls + i) = true)) ∧
    onReceiveCalls (v.foldl (recvStep cb env) c).trace =
      onReceiveCalls c.trace ++ callbackCalls cb (reporters env c.calls v) := by
  induction v generalizing c with
  | nil => cases cb <;> simp [reporters, callbackCalls]
  | cons p rest ih =>
    simp only [List.foldl_cons]
    obtain ⟨h1, h2, h3, h4, h5⟩ := ih (recvStep cb env c p)
    have hcalls : (recvStep cb env c p).calls = c.calls + 1 := by
      cases cb <;> cases hr : env.received c.calls <;> simp [recvStep, hr]
    have hex : exchangedSockets (recvStep cb env c p).trace = exchangedSockets c.trace ++ [p] := by
      cases cb <;> cases hr : env.received c.calls <;>
        simp [recvStep, hr, exchangedSockets, List.filterMap_append]
    have hfin : finishedCalls (recvStep cb env c p).trace = finishedCalls c.trace := by
      cases cb <;> cases hr : env.received c.calls <;>
        simp [recvStep, hr, finishedCalls, List.filterMap_append]
    have hdata : (recvStep cb env c p).receivedData = (c.receivedData || env.received c.calls) := by
      cases cb <;> cases hr : env.received c.calls <;> simp [recvStep, hr]
    have hon : onReceiveCalls (recvStep cb env c p).trace =
        onReceiveCalls c.trace ++
          callbackCalls cb (if env.received c.calls then [p] else []) := by
      cases cb <;> cases hr : env.received c.calls <;>
        simp [recvStep, hr, onReceiveCalls, List.filterMap_append, callbackCalls]
    refine ⟨?_, ?_, ?_, ?_, ?_⟩
    · rw [h1, hcalls, List.length_cons]
      omega
    · rw [h2, hex]
      simp
    · rw [h3, hfin]
    · rw [h4, hdata, hcalls]
      simp only [Bool.or_eq_true, List.length_cons]
      constructor
      · rintro ((hc | hk) | ⟨i, hi, hr⟩)
        · exact Or.inl hc
        · exact Or.inr ⟨0, by omega, by simpa using hk⟩
        · exact Or.inr ⟨i + 1, by omega, by rw [← hr]; congr 1; omega⟩
      · rintro (hc | ⟨i, hi, hr⟩)
        · exact Or.inl (Or.inl hc)
        · cases i with
          | zero => exact Or.inl (Or.inr (by simpa using hr))
          | succ j => exact Or.inr ⟨j, by omega, by rw [← hr]; congr 1; omega⟩
    · rw [h5, hon, hcalls]
      cases cb with
      | none => simp [callbackCalls]
      | some f =>
        cases hr : env.received c.calls <;> simp [reporters, hr, callbackCalls]

/-- The loop over the send set, started in the cycle state `c`: it appends
one exchange per socket and no callback. -/
theorem foldl_sendStep (env : ExchangeEnv) (v : List SocketPtr) (c : Cycle) :
    ∃ post, (v.foldl (sendStep env) c).trace = c.trace ++ post ∧
      exchangedSockets post = v ∧ finishedCalls post = [] ∧ onReceiveCalls post = [] := by
  induction v generalizing c with
  | nil => exact ⟨[], by simp, rfl, rfl, rfl⟩
  | cons p rest ih =>
    simp only [List.foldl_cons]
    obtain ⟨post, h1, h2, h3, h4⟩ := ih (sendStep env c p)
    refine ⟨Action.exchange p (env.received c.calls) :: post, ?_, ?_, ?_, ?_⟩
    · rw [h1]
      simp [sendStep]
    · simp only [exchangedSockets, List.filterMap_cons] at h2 ⊢
      rw [h2]
    · simp only [finishedCalls, List.filterMap_cons] at h3 ⊢
      exact h3
    · simp only [onReceiveCalls, List.filterMap_cons] at h4 ⊢
      exact h4

theorem count_pair_map (f : CallbackId) (p : SocketPtr) (l : List SocketPtr) :
    (l.map (fun q => (f, q))).count (f, p) = l.count p := by
  induction l with
  | nil => rfl
  | cons a rest ih =>
    simp only [List.map_cons, List.count_cons, ih]
    congr 1
    by_cases h : a = p
    · subst h
      simp
    · have hne : ((f, a) == (f, p)) = false := by
        apply Bool.eq_false_iff.mpr
        intro hc
        exact h (Prod.mk.inj (eq_of_beq hc)).2
      simp [hne, h]

/-- The shape of the trace of one `sendAndReceive()` call: the receive pass,
then the gated callback, then the send pass. -/
theorem sendAndReceive_shape (s : TCPServer) (env : ExchangeEnv) :
    ∃ pre post,
      sendAndReceive s env =
        pre ++ finishedCallsOf s.recvFinishedCallback_
          (decide (∃ i, i < s.receiveSockets_.length ∧ env.received i = true)) ++ post ∧
      exchangedSockets pre = s.receiveSockets_ ∧ finishedCalls pre = [] ∧
      onReceiveCalls pre = callbackCalls s.recvCallback_ (reporters env 0 s.receiveSockets_) ∧
      exchangedSockets post = s.sendSockets_ ∧ finishedCalls post = [] ∧
      onReceiveCalls post = [] := by
  obtain ⟨-, h2, h3, h4, h5⟩ := foldl_recvStep s.recvCallback_ env s.receiveSockets_
    { trace := [], calls := 0, clockReads := 0, receivedData := false }
  obtain ⟨post, p1, p2, p3, p4⟩ := foldl_sendStep env s.sendSockets_
    (finishStep s.recvFinishedCallback_
      (s.receiveSockets_.foldl (recvStep s.recvCallback_ env)
        { trace := [], calls := 0, clockReads := 0, receivedData := false }))
  simp only [Nat.zero_add, Bool.false_eq_true, false_or] at h4
  refine ⟨_, post, ?_, h2, h3, h5, p2, p3, p4⟩
  unfold sendAndReceive
  simp only []
  rw [p1]
  congr 1
  by_cases hd : ∃ i, i < s.receiveSockets_.length ∧ env.received i = true
  · have hrd := h4.mpr hd
    cases hf : s.recvFinishedCallback_ <;>
      simp [finishStep, finishedCallsOf, hrd, hd]
  · have hrd : (s.receiveSockets_.foldl (recvStep s.recvCallback_ env)
        { trace := [], calls := 0, clockReads := 0, receivedData := false }).receivedData
          = false := by
      rw [← Bool.not_eq_true]
      exact fun hc => hd (h4.mp hc)
    cases hf : s.recvFinishedCallback_ <;>
      simp [finishStep, finishedCallsOf, hrd, hd]

/-- Claim C3. Receive-cycle callback gating: with a receive-cycle-finished
callback configured, a `sendAndReceive()` call invokes the callback exactly
once if at least one socket received data in the pass over the receive set,
and zero times if none did; when it fires it fires after the whole pass over
the receive set and before the pass over the send set. -/
theorem sendAndReceive_finished_gating (s : TCPServer) (env : ExchangeEnv) (f : CallbackId)
    (hcb : s.recvFinishedCallback_ = some f) :
    ((∃ i, i < s.receiveSockets_.length ∧ env.received i = true) →
      finishedCalls (sendAndReceive s env) = [f] ∧
      ∃ pre post, sendAndReceive s env = pre ++ [Action.onReceiveCycleFinished f] ++ post ∧
        exchangedSockets pre = s.receiveSockets_ ∧ exchangedSockets post = s.sendSockets_) ∧
    ((∀ i, i < s.receiveSockets_.length → env.received i = false) →
      finishedCalls (sendAndReceive s env) = []) := by
  obtain ⟨pre, post, htrace, h1, h2, -, h4, h5, -⟩ := sendAndReceive_shape s env
  rw [hcb] at htrace
  constructor
  · intro hd
    simp only [hd, decide_True, finishedCallsOf] at htrace
    refine ⟨?_, pre, post, htrace, h1, h4⟩
    rw [htrace]
    simp only [finishedCalls, List.filterMap_append] at h2 h5 ⊢
    rw [h2, h5]
    rfl
  · intro hd
    have hnd : ¬ ∃ i, i < s.receiveSockets_.length ∧ env.received i = true := by
      rintro ⟨i, hi, hr⟩
      rw [hd i hi] at hr
      exact Bool.false_ne_true hr
    simp only [hnd, decide_False, finishedCallsOf] at htrace
    rw [htrace]
    simp only [finishedCalls, List.filterMap_append] at h2 h5 ⊢
    rw [h2, h5]
    rfl

/-- Instance of C3: with the peers 2 and 3 in the receive set, the callback
200 runs once when the exchange of peer 3 in the receive pass reports data,
and not at all when no exchange reports data. -/
theorem sendAndReceive_finished_gating_witness :
    finishedCalls (sendAndReceive twoPeers (onlyCall 1)) = [200] ∧
    finishedCalls (sendAndReceive twoPeers (onlyCall 5)) = [] :=
  ⟨((sendAndReceive_finished_gating twoPeers (onlyCall 1) 200 rfl).1
      ⟨1, by decide, rfl⟩).1,
    (sendAndReceive_finished_gating twoPeers (onlyCall 5) 200 rfl).2 (by decide)⟩

/-- Claim C4. Per-socket receive callback: with a receive callback
configured, a `sendAndReceive()` call invokes it once per exchange of the
receive pass that reported newly received data, with that socket as argument
and in that order; so, the receive set holding each socket once (the
membership invariant), exactly once for each socket that reported new data,
and never for a socket that reported none; no other callback is invoked in
its place. -/
theorem sendAndReceive_onReceive_per_socket (s : TCPServer) (env : ExchangeEnv)
    (f : CallbackId) (p : SocketPtr)
    (hcb : s.recvCallback_ = some f) :
    onReceiveCalls (sendAndReceive s env) =
      (reporters env 0 s.receiveSockets_).map (fun q => (f, q)) ∧
    (s.receiveSockets_.Nodup →
      (∃ i, s.receiveSockets_[i]? = some p ∧ env.received i = true) →
      (onReceiveCalls (sendAndReceive s env)).count (f, p) = 1) ∧
    ((¬ ∃ i, s.receiveSockets_[i]? = some p ∧ env.received i = true) →
      ∀ g, (g, p) ∉ onReceiveCalls (sendAndReceive s env)) ∧
    (∀ c ∈ onReceiveCalls (sendAndReceive s env), c.1 = f) := by
  obtain ⟨pre, post, htrace, -, -, h3, -, -, h6⟩ := sendAndReceive_shape s env
  have hcalls : onReceiveCalls (sendAndReceive s env) =
      (reporters env 0 s.receiveSockets_).map (fun q => (f, q)) := by
    rw [htrace]
    have hmid : onReceiveCalls (finishedCallsOf s.recvFinishedCallback_
        (decide (∃ i, i < s.receiveSockets_.length ∧ env.received i = true))) = [] := by
      cases s.recvFinishedCallback_ <;>
        cases (decide (∃ i, i < s.receiveSockets_.length ∧ env.received i = true)) <;>
        simp [finishedCallsOf, onReceiveCalls]
    simp only [onReceiveCalls, List.filterMap_append] at h3 h6 hmid ⊢
    rw [h3, h6, hmid, hcb]
    simp [callbackCalls]
  have hmem := mem_reporters env 0 s.receiveSockets_ p
  simp only [Nat.zero_add] at hmem
  refine ⟨hcalls, ?_, ?_, ?_⟩
  · intro hnd hd
    rw [hcalls, count_pair_map]
    exact List.count_eq_one_of_mem ((reporters_sublist env 0 s.receiveSockets_).nodup hnd)
      (hmem.mpr hd)
  · intro hd g hg
    rw [hcalls] at hg
    obtain ⟨q, hq, hqe⟩ := List.mem_map.mp hg
    have hqp : q = p := (Prod.mk.inj hqe).2
    exact hd (hmem.mp (hqp ▸ hq))
  · intro c hc
    rw [hcalls] at hc
    obtain ⟨q, -, hqe⟩ := List.mem_map.mp hc
    rw [← hqe]

/-- Instance of C4: with the peers 2 and 3 in the receive set and data
reported by the exchange of peer 3 in the receive pass, the callback 100 runs
once, for peer 3, and not for peer 2. -/
theorem sendAndReceive_onReceive_per_socket_witness :
    onReceiveCalls (sendAndReceive twoPeers (onlyCall 1)) = [(100, 3)] ∧
    (onReceiveCalls (sendAndReceive twoPeers (onlyCall 1))).count (100, 3) = 1 ∧
    (∀ g, (g, 2) ∉ onReceiveCalls (sendAndReceive twoPeers (onlyCall 1))) :=
  ⟨(sendAndReceive_onReceive_per_socket twoPeers (onlyCall 1) 100 3 rfl).1,
    (sendAndReceive_onReceive_per_socket twoPeers (onlyCall 1) 100 3 rfl).2.1 (by decide)
      ⟨1, by decide, rfl⟩,
    (sendAndReceive_onReceive_per_socket twoPeers (onlyCall 1) 100 2 rfl).2.2.1
      (by
        rintro ⟨i, hi, hr⟩
        have h1 : i = 1 := by simpa [onlyCall] using hr
        subst h1
        revert hi
        decide)⟩

/-- The pass over the send set starts no callback, whatever its exchanges
return: with the peer 3 in both sets and data reported only by its second
exchange, no callback runs. -/
theorem sendAndReceive_send_pass_ungated :
    sendAndReceive twoPeers (onlyCall 2) =
      [Action.exchange 2 false, Action.exchange 3 false, Action.exchange 3 true] := by
  decide

/-! ## Event-batch sizing -/

theorem listen_registered (b : Backend) (s0 s : TCPServer) (env : ListenEnv)
    (h : listen b s0 env = .ok s) : Registered s := by
  cases hs : env.slot with
  | none => simp [listen, allocate, hs, bind, Except.bind] at h
  | some p =>
    by_cases hc : env.connectStatus ≥ 0 <;> cases hr : env.registerOk <;> cases b <;>
      simp [listen, allocate, ASSERT_CONDITION, addSocketToEventSystem, hs, hc, hr, bind,
        Except.bind, pure, Except.pure] at h <;>
      subst h <;> simp [Registered]

theorem processEvents_registered (s : TCPServer) (evs : List Event) (h : Registered s) :
    Registered (processEvents s evs).1 := by
  obtain ⟨h1, h2, h3⟩ := h
  obtain ⟨fl, -, -, -, -, flive, fint⟩ := foldl_handleEvent_frame evs (s, false)
  unfold processEvents
  refine ⟨?_, ?_, ?_⟩
  · rw [fint]
    exact h1
  · rw [fint, flive]
    exact h2
  · rw [fint, fl]
    intro p hp
    rcases h3 p hp with hl | hr
    · exact Or.inl hl
    · exact Or.inr ((mem_recv_foldl_handleEvent evs (s, false) p).mpr (Or.inl hr))

theorem acceptLoop_registered (b : Backend) (accepts : List Accepted) (s s1 : TCPServer)
    (hinv : Registered s)
    (hdistinct : (accepts.filterMap Accepted.slot).Nodup)
    (hfresh : ∀ p ∈ accepts.filterMap Accepted.slot, p ∉ s.live)
    (h : acceptLoop b s accepts = .ok s1) : Registered s1 := by
  induction accepts generalizing s with
  | nil =>
    simp only [acceptLoop, Except.ok.injEq] at h
    exact h ▸ hinv
  | cons a rest ih =>
    unfold acceptLoop at h
    by_cases hfd : a.fd = -1
    · simp only [hfd, if_true, Except.ok.injEq] at h
      exact h ▸ hinv
    · simp only [hfd, if_false] at h
      cases hone : acceptOne b s a with
      | error e => simp [hone] at h
      | ok t =>
        simp only [hone] at h
        obtain ⟨p, hp, -, -, hrecv, -, hl, -, -, -, -, -, hlive, hint, -⟩ :=
          acceptOne_ok b s t a hone
        have hslots : (a :: rest).filterMap Accepted.slot = p :: rest.filterMap Accepted.slot := by
          simp [List.filterMap_cons, hp]
        rw [hslots] at hdistinct hfresh
        have hnd := List.nodup_cons.mp hdistinct
        have hpl : p ∉ s.live := hfresh p (List.mem_cons_self _ _)
        obtain ⟨i1, i2, i3⟩ := hinv
        have hpi : p ∉ s.interest := fun hc => hpl (i2 p hc)
        have hsub : ∀ q, q ∈ t.interest → q ∈ s.interest ∨ q = p := by
          intro q hq
          rw [hint] at hq
          by_cases hr : a.registerOk = true
          · simp only [hr, if_true] at hq
            rcases List.mem_append.mp hq with hm | hm
            · exact Or.inl hm
            · exact Or.inr (by simpa using hm)
          · simp only [hr] at hq
            exact Or.inl hq
        have hinv1 : Registered t := by
          refine ⟨?_, ?_, ?_⟩
          · rw [hint]
            by_cases hr : a.registerOk = true
            · simp only [hr, if_true]
              exact List.Nodup.append i1 (List.nodup_singleton p) (by simpa using hpi)
            · simp only [hr]
              exact i1
          · intro q hq
            rw [hlive]
            rcases hsub q hq with hm | rfl
            · exact List.mem_append.mpr (Or.inl (i2 q hm))
            · simp
          · intro q hq
            rw [hl, hrecv]
            rcases hsub q hq with hm | rfl
            · rcases i3 q hm with hx | hx
              · exact Or.inl hx
              · exact Or.inr (mem_pushIfAbsent.mpr (Or.inl hx))
            · exact Or.inr (mem_pushIfAbsent.mpr (Or.inr rfl))
        refine ih t hinv1 hnd.2 ?_ h
        intro q hq
        rw [hlive]
        intro hmem
        rcases List.mem_append.mp hmem with hm | hm
        · exact hfresh q (List.mem_cons_of_mem _ hq) hm
        · have hqp : q = p := by simpa using hm
          exact hnd.1 (hqp ▸ hq)

/-- Every reachable state satisfies the registration invariant. -/
theorem reachable_registered (b : Backend) (s : TCPServer) (h : Reachable b s) :
    Registered s := by
  induction h with
  | listen s0 env s _ _ _ hl => exact listen_registered b s0 s env hl
  | poll s ready accepts s1 _ _ hfresh hp ih =>
    have hev := processEvents_registered s (eventBatch s ready) ih
    have hlive : (processEvents s (eventBatch s ready)).1.live = s.live :=
      (foldl_handleEvent_frame (eventBatch s ready) (s, false)).2.2.2.2.2.1
    unfold poll at hp
    by_cases hf : (processEvents s (eventBatch s ready)).2 = true
    · simp only [hf, if_true] at hp
      exact acceptLoop_registered b accepts _ s1 hev hfresh.1
        (fun p hpm => by rw [hlive]; exact hfresh.2 p hpm) hp
    · simp only [hf] at hp
      simp only [Bool.false_eq_true, if_false, Except.ok.injEq] at hp
      exact hp ▸ hev

/-- A successful `listen()` writes neither set. -/
theorem listen_sets (b : Backend) (s0 s : TCPServer) (env : ListenEnv)
    (h : listen b s0 env = .ok s) :
    s.receiveSockets_ = s0.receiveSockets_ ∧ s.sendSockets_ = s0.sendSockets_ := by
  cases hs : env.slot with
  | none => simp [listen, allocate, hs, bind, Except.bind] at h
  | some p =>
    by_cases hc : env.connectStatus ≥ 0 <;> cases hr : env.registerOk <;> cases b <;>
      simp [listen, allocate, ASSERT_CONDITION, addSocketToEventSystem, hs, hc, hr, bind,
        Except.bind, pure, Except.pure] at h <;>
      subst h <;> simp

/-- The membership invariant holds in every reachable state: each set holds
a socket at most once. -/
theorem reachable_nodup (b : Backend) (s : TCPServer) (h : Reachable b s) :
    s.receiveSockets_.Nodup ∧ s.sendSockets_.Nodup := by
  induction h with
  | listen s0 env s hr hs _ hl =>
    obtain ⟨h1, h2⟩ := listen_sets b s0 s env hl
    rw [h1, h2, hr, hs]
    exact ⟨List.nodup_nil, List.nodup_nil⟩
  | poll s ready accepts s1 _ _ _ hp ih =>
    have hev := nodup_foldl_handleEvent (eventBatch s ready) (s, false) ih.1 ih.2
    unfold poll at hp
    by_cases hf : (processEvents s (eventBatch s ready)).2 = true
    · simp only [hf, if_true] at hp
      exact acceptLoop_nodup b accepts _ s1 hev.1 hev.2 hp
    · simp only [hf] at hp
      simp only [Bool.false_eq_true, if_false, Except.ok.injEq] at hp
      exact hp ▸ hev

/-- The batch size is the plain sum when the sum fits an `int`. -/
theorem maxEvents_eq (s : TCPServer)
    (hfit : 1 + s.sendSockets_.length + s.receiveSockets_.length < 2 ^ 31) :
    maxEvents s = ((1 + s.sendSockets_.length + s.receiveSockets_.length : Nat) : Int) := by
  unfold maxEvents toInt32
  have h1 : (1 + s.sendSockets_.length + s.receiveSockets_.length) % 2 ^ 64 =
      1 + s.sendSockets_.length + s.receiveSockets_.length :=
    Nat.mod_eq_of_lt (by omega)
  have h2 : (1 + s.sendSockets_.length + s.receiveSockets_.length) % 2 ^ 32 =
      1 + s.sendSockets_.length + s.receiveSockets_.length :=
    Nat.mod_eq_of_lt (by omega)
  rw [h1, h2]
  simp only [hfit, if_true]

/-- Claim C8, amended. In every `poll()` call the batch size requested from
the multiplexer is 1 + |sendSet| + |receiveSet| measured on entry (the sum
fitting an `int`), and in every state reachable from `listen()` through
`poll()` and `sendAndReceive()` calls this size is at least the number of
registered sockets, the listener and every accepted peer; so no ready event
is dropped from the batch when each registered descriptor has at most one
ready event, as in the bit mask model. -/
theorem poll_batch_size_covers_descriptors (b : Backend) (s : TCPServer)
    (hreach : Reachable b s)
    (hfit : 1 + s.sendSockets_.length + s.receiveSockets_.length < 2 ^ 31) :
    maxEvents s = ((1 + s.sendSockets_.length + s.receiveSockets_.length : Nat) : Int) ∧
    (s.interest.length : Int) ≤ maxEvents s ∧
    (∀ ready : List Event, (∀ e ∈ ready, e.socket ∈ s.interest) →
      (ready.map Event.socket).Nodup → eventBatch s ready = ready) := by
  obtain ⟨i1, -, i3⟩ := reachable_registered b s hreach
  have hmax := maxEvents_eq s hfit
  have hlen : s.interest.length ≤ 1 + s.receiveSockets_.length := by
    have hsub : s.interest ⊆ s.listenerSocket_ :: s.receiveSockets_ := by
      intro p hp
      rcases i3 p hp with hl | hr
      · exact hl ▸ List.mem_cons_self _ _
      · exact List.mem_cons_of_mem _ hr
    have := (List.Nodup.subperm i1 hsub).length_le
    simpa [Nat.add_comm] using this
  refine ⟨hmax, ?_, ?_⟩
  · rw [hmax]
    exact_mod_cast (by omega : s.interest.length ≤
      1 + s.sendSockets_.length + s.receiveSockets_.length)
  · intro ready hreg hnd
    have hsub : ready.map Event.socket ⊆ s.interest := by
      intro p hp
      obtain ⟨e, he, hpe⟩ := List.mem_map.mp hp
      exact hpe ▸ hreg e he
    have hrl : ready.length ≤ s.interest.length := by
      have := (List.Nodup.subperm hnd hsub).length_le
      simpa using this
    unfold eventBatch eventWait
    rw [hmax]
    apply List.take_of_length_le
    simp only [Int.toNat_ofNat]
    omega

/-- Instance of C8, amended: after `listen()` and a `poll()` that accepted one
peer in the epoll build, the requested size is 2, the two sockets are
registered, and a ready list with one event per socket is returned whole. -/
theorem poll_batch_size_covers_descriptors_witness :
    maxEvents onePeerServer = 2 ∧ onePeerServer.interest.length = 2 ∧
    eventBatch onePeerServer [Event.epoll EPOLLIN 1, Event.epoll (EPOLLIN ||| EPOLLOUT) 2] =
      [Event.epoll EPOLLIN 1, Event.epoll (EPOLLIN ||| EPOLLOUT) 2] := by
  have hreach : Reachable .epoll onePeerServer :=
    Reachable.poll listeningServer [Event.epoll EPOLLIN 1] [goodAccept 5 2] onePeerServer
      (Reachable.listen freshServer goodListen listeningServer rfl rfl rfl rfl)
      ⟨by decide, by decide⟩ ⟨by decide, by decide⟩ rfl
  have h := poll_batch_size_covers_descriptors .epoll onePeerServer hreach (by decide)
  exact ⟨h.1, rfl, h.2.2 _ (by decide) (by decide)⟩

/-- Claim C8 as stated fails in the filter model. In the kqueue build, after
`listen()` and one `poll()` that accepted one peer, the requested size is 2,
while three events can be ready at once for the two registered sockets: the
batch drops the third. -/
theorem poll_batch_undersized_for_filters :
    ¬ (∀ (b : Backend) (s : TCPServer) (ready : List Event),
        Reachable b s → ReadyList b s ready → eventBatch s ready = ready) := by
  intro h
  have hreach : Reachable .kqueue onePeerServer :=
    Reachable.poll listeningServer [Event.kevent EVFILT_READ 0 1] [goodAccept 5 2] onePeerServer
      (Reachable.listen freshServer goodListen listeningServer rfl rfl rfl rfl)
      ⟨by decide, by decide⟩ ⟨by decide, by decide⟩ rfl
  have hc := h .kqueue onePeerServer threeReady hreach ⟨by decide, by decide⟩
  revert hc
  decide

end utils
